import Mathlib

/-!
# Verification of the selection ledger in `daily_manga_video.py`

Shallow embedding of the state-machine-like core of the script: the
unused-item selection (`get_unused_items` plus the reset/sample step at the
top of `build_video`), the ledger commit (the `used.json` update at the end
of `build_video`), and the control flow of `send_email`.

Catalog entries are `[id, description]` pairs; the id is the first field.
The persisted ledger is a JSON list of ids. Randomness (`random.sample`)
is modelled by an explicit list of chosen indices, quantified over all
valid choices.
-/

set_option autoImplicit false

namespace MangaBot

/-- A catalog entry `[title, description]`; the id is the title (field 0),
exactly as `m[0]` is used in `get_unused_items` and the commit loop. -/
abbrev Item := String × String

/-- The constant `NUM_RECS = 5` from the config block. -/
def NUM_RECS : Nat := 5

/-- The `remaining` list computed by `get_unused_items`:
`[m for m in manga if m[0] not in used_set]` where `used_set = set(used)`.
Membership in a Python `set` built from a list is list membership. -/
def remainingOf (manga : List Item) (used : List String) : List Item :=
  manga.filter (fun m => !(decide (m.1 ∈ used)))

/-- Result of the reset step at the top of `build_video` (lines 202-206). -/
structure PoolOutcome where
  usedForRun : List String
  pool : List Item
  resetOccurred : Bool
  deriving Repr, DecidableEq

/-- Lines 202-206 of `build_video`: compute `remaining`; if
`len(remaining) < NUM_RECS`, reset `used` to `[]` and take the whole
catalog as the pool, otherwise keep `used` and `remaining`.
The reset branch also prints a reset notice, modelled by `resetOccurred`. -/
def selectPool (manga : List Item) (used : List String) : PoolOutcome :=
  if (remainingOf manga used).length < NUM_RECS then
    { usedForRun := [], pool := manga, resetOccurred := true }
  else
    { usedForRun := used, pool := remainingOf manga used, resetOccurred := false }

/-- Errors the selection step can surface. `valueError` models the
uncontrolled `ValueError` that `random.sample` raises when the population
is smaller than `k`. `insufficientCatalog` models the controlled
`InsufficientCatalogError` named by the specification; the source never
raises it and no code path below produces it. -/
inductive SelectError where
  | valueError
  | insufficientCatalog
  deriving Repr, DecidableEq

/-- A valid draw of `random.sample(pool, k=NUM_RECS)` for a pool of length
`n`: `NUM_RECS` distinct indices into the pool. -/
def ValidChoice (n : Nat) (choice : List Nat) : Prop :=
  choice.Nodup ∧ choice.length = NUM_RECS ∧ ∀ i ∈ choice, i < n

instance (n : Nat) (choice : List Nat) : Decidable (ValidChoice n choice) := by
  unfold ValidChoice; infer_instance

/-- The call `random.sample(pool, k=NUM_RECS)` (line 208): raises `ValueError` when
`len(pool) < NUM_RECS`, otherwise returns the items at the drawn indices.
The drawn indices `choice` are the model's source of randomness. -/
def randomSample (pool : List Item) (choice : List Nat) :
    Except SelectError (List Item) :=
  if NUM_RECS ≤ pool.length then
    .ok (choice.map (fun i => pool.getD i ("", "")))
  else
    .error .valueError

/-- The whole selection step of `build_video` (lines 202-210): the reset
logic followed by the sample. Returns the batch together with whether a
reset was triggered on this call. -/
def selectStep (manga : List Item) (used : List String) (choice : List Nat) :
    Except SelectError (List Item × Bool) :=
  match randomSample (selectPool manga used).pool choice with
  | .ok batch => .ok (batch, (selectPool manga used).resetOccurred)
  | .error e => .error e

/-- The dedup loop of the `used.json` update (lines 317-320):
`seen = set(); uniq = []; for u in used_new: if u not in seen: seen.add(u); uniq.append(u)`.
`seen` is carried as a list used only through membership. -/
def dedupAux (seen : List String) : List String → List String
  | [] => []
  | u :: rest =>
    if u ∈ seen then dedupAux seen rest
    else u :: dedupAux (u :: seen) rest

/-- First-seen-order deduplication, the loop started with empty `seen`. -/
def dedupFirstSeen (l : List String) : List String := dedupAux [] l

/-- The ledger commit (lines 315-321 of `build_video`): re-read `used.json`
from disk, extend with the selected ids, deduplicate keeping first
occurrences, and write the result back. -/
def commit (diskUsed : List String) (batchIds : List String) : List String :=
  dedupFirstSeen (diskUsed ++ batchIds)

/-- Errors that abort `build_video`. -/
inductive RunError where
  | selectError (e : SelectError)
  | renderError
  deriving Repr, DecidableEq

/-- Inputs of one `build_video` run: the catalog file, the ledger file on
disk, the sample draw, and whether `write_videofile` succeeds. -/
structure RunInput where
  manga : List Item
  diskUsed : List String
  choice : List Nat
  renderOk : Bool
  deriving Repr

/-- Observable outcome of one run: the ledger file after the run, and
either the committed batch ids or the error that aborted the run. -/
structure RunResult where
  diskUsed' : List String
  outcome : Except RunError (List String)
  deriving Repr

/-- The function `build_video` as a state transformer on the ledger file. Selection
(lines 202-210) happens first; an exception there propagates before any
rendering or write. Rendering (`write_videofile`, line 311) may fail,
in which case the exception propagates before the `used.json` update.
Only after a successful render does line 315 re-read `used.json` from disk
— not the in-memory `used` variable, which a reset may have cleared — and
lines 316-321 write back the deduplicated extension. -/
def buildVideoRun (inp : RunInput) : RunResult :=
  match selectStep inp.manga inp.diskUsed inp.choice with
  | .error e => { diskUsed' := inp.diskUsed, outcome := .error (.selectError e) }
  | .ok (batch, _reset) =>
    if inp.renderOk then
      { diskUsed' := commit inp.diskUsed (batch.map Prod.fst)
        outcome := .ok (batch.map Prod.fst) }
    else
      { diskUsed' := inp.diskUsed, outcome := .error .renderError }

/-- The three Gmail environment variables read by `send_email`;
`none` models an unset variable (`os.getenv` returning `None`). -/
structure EmailEnv where
  sender : Option String
  appPassword : Option String
  receiver : Option String
  deriving Repr, DecidableEq

/-- Python truthiness of an `os.getenv` result: `None` and the empty
string are falsy, any other string is truthy. -/
def truthy : Option String → Bool
  | none => false
  | some s => !(decide (s = ""))

/-- The constant `TAGS` from the config block. -/
def TAGS : String := "#manga #recommendation #anime"

/-- The message body built by `send_email` (lines 343-346). -/
def emailBody (title : String) (slides : List Item) : String :=
  title ++ "\n" ++ TAGS ++ "\n\n" ++
    String.join (slides.map (fun s => s.1 ++ ": " ++ s.2 ++ "\n"))

/-- What `send_email` did. `skipped`: missing credentials, returned before
any message was built. `sent`: transport succeeded. `transportWarned`:
the SMTP block raised and the `except` printed a warning. -/
inductive EmailResult where
  | skipped
  | sent (body : String)
  | transportWarned (body : String)
  deriving Repr, DecidableEq

/-- An exception escaping `send_email`: only the attachment read
(`open(video_path, "rb")`, line 348) is outside the `try` block. -/
inductive EmailError where
  | fileOpenError
  deriving Repr, DecidableEq

/-- The function `send_email` (lines 329-357): check the three environment variables
with `all` (line 334) and return early if any is falsy; build the message;
read the video file (can raise, outside the `try`); attempt SMTP delivery
inside `try`, catching any transport exception and printing a warning.
`videoReadable` models whether the attachment read succeeds and
`transportOk` whether the SMTP session succeeds. The function performs no
write to `used.json` (or any other file). -/
def sendEmail (env : EmailEnv) (title : String) (slides : List Item)
    (videoReadable transportOk : Bool) : Except EmailError EmailResult :=
  if truthy env.sender && truthy env.appPassword && truthy env.receiver then
    if videoReadable then
      if transportOk then .ok (.sent (emailBody title slides))
      else .ok (.transportWarned (emailBody title slides))
    else .error .fileOpenError
  else .ok .skipped

/-- The delivery step seen from the ledger: `send_email` touches no file
state, so the ledger passes through unchanged whatever the result. -/
def sendEmailStep (ledger : List String) (env : EmailEnv) (title : String)
    (slides : List Item) (videoReadable transportOk : Bool) :
    List String × Except EmailError EmailResult :=
  (ledger, sendEmail env title slides videoReadable transportOk)

/-! ## Lemmas about the dedup loop -/

theorem mem_dedupAux (x : String) (l : List String) :
    ∀ seen, x ∈ dedupAux seen l ↔ x ∈ l ∧ x ∉ seen := by
  induction l with
  | nil => intro seen; simp [dedupAux]
  | cons u rest ih =>
    intro seen
    by_cases hu : u ∈ seen
    · simp only [dedupAux, if_pos hu, ih]
      constructor
      · rintro ⟨hx, hs⟩; exact ⟨.tail _ hx, hs⟩
      · rintro ⟨hx, hs⟩
        rcases List.mem_cons.1 hx with rfl | hx
        · exact absurd hu hs
        · exact ⟨hx, hs⟩
    · simp only [dedupAux, if_neg hu, List.mem_cons, ih, not_or]
      constructor
      · rintro (rfl | ⟨hx, _, hs⟩)
        · exact ⟨Or.inl rfl, hu⟩
        · exact ⟨Or.inr hx, hs⟩
      · rintro ⟨rfl | hx, hs⟩
        · exact Or.inl rfl
        · by_cases hxu : x = u
          · exact Or.inl hxu
          · exact Or.inr ⟨hx, hxu, hs⟩

theorem pairwise_indexOf_dedupAux (l : List String) :
    ∀ seen, (dedupAux seen l).Pairwise
      (fun x y => l.indexOf x < l.indexOf y) := by
  induction l with
  | nil => intro seen; simp [dedupAux]
  | cons u rest ih =>
    intro seen
    by_cases hu : u ∈ seen
    · simp only [dedupAux, if_pos hu]
      refine (ih seen).imp_of_mem ?_
      intro a b ha hb hab
      have ha' := ((mem_dedupAux a rest seen).1 ha)
      have hb' := ((mem_dedupAux b rest seen).1 hb)
      have hau : a ≠ u := fun h => ha'.2 (h ▸ hu)
      have hbu : b ≠ u := fun h => hb'.2 (h ▸ hu)
      rw [List.indexOf_cons_ne _ (Ne.symm hau), List.indexOf_cons_ne _ (Ne.symm hbu)]
      omega
    · simp only [dedupAux, if_neg hu]
      refine List.Pairwise.cons ?_ ?_
      · intro y hy
        have hy' := (mem_dedupAux y rest (u :: seen)).1 hy
        have hyu : y ≠ u := fun h => hy'.2 (h ▸ List.mem_cons_self u seen)
        rw [List.indexOf_cons_self, List.indexOf_cons_ne _ (Ne.symm hyu)]
        omega
      · refine (ih (u :: seen)).imp_of_mem ?_
        intro a b ha hb hab
        have ha' := ((mem_dedupAux a rest (u :: seen)).1 ha)
        have hb' := ((mem_dedupAux b rest (u :: seen)).1 hb)
        have hau : a ≠ u := fun h => ha'.2 (h ▸ List.mem_cons_self u seen)
        have hbu : b ≠ u := fun h => hb'.2 (h ▸ List.mem_cons_self u seen)
        rw [List.indexOf_cons_ne _ (Ne.symm hau), List.indexOf_cons_ne _ (Ne.symm hbu)]
        omega

theorem nodup_dedupAux (l : List String) (seen : List String) :
    (dedupAux seen l).Nodup := by
  refine (pairwise_indexOf_dedupAux l seen).imp ?_
  intro a b hab
  intro h
  subst h
  exact Nat.lt_irrefl _ hab

theorem dedupAux_eq_nil (l : List String) :
    ∀ seen, (∀ x ∈ l, x ∈ seen) → dedupAux seen l = [] := by
  induction l with
  | nil => intro seen _; rfl
  | cons u rest ih =>
    intro seen h
    have hu : u ∈ seen := h u (List.mem_cons_self u rest)
    simp only [dedupAux, if_pos hu]
    exact ih seen (fun x hx => h x (List.mem_cons_of_mem _ hx))

theorem dedupAux_append (m : List String) (l : List String) :
    ∀ seen, (∀ x ∈ m, x ∈ seen ∨ x ∈ l) →
      dedupAux seen (l ++ m) = dedupAux seen l := by
  induction l with
  | nil =>
    intro seen h
    simp only [List.nil_append, dedupAux]
    exact dedupAux_eq_nil m seen (fun x hx => (h x hx).resolve_right (by simp))
  | cons u rest ih =>
    intro seen h
    by_cases hu : u ∈ seen
    · simp only [List.cons_append, dedupAux, if_pos hu]
      refine ih seen ?_
      intro x hx
      rcases h x hx with hs | hc
      · exact Or.inl hs
      · rcases List.mem_cons.1 hc with rfl | hr
        · exact Or.inl hu
        · exact Or.inr hr
    · simp only [List.cons_append, dedupAux, if_neg hu]
      congr 1
      refine ih (u :: seen) ?_
      intro x hx
      rcases h x hx with hs | hc
      · exact Or.inl (List.mem_cons_of_mem _ hs)
      · rcases List.mem_cons.1 hc with rfl | hr
        · exact Or.inl (List.mem_cons_self _ _)
        · exact Or.inr hr

theorem dedupAux_of_nodup (l : List String) :
    ∀ seen, l.Nodup → (∀ x ∈ l, x ∉ seen) → dedupAux seen l = l := by
  induction l with
  | nil => intro seen _ _; rfl
  | cons u rest ih =>
    intro seen hnd hs
    have hu : u ∉ seen := hs u (List.mem_cons_self u rest)
    simp only [dedupAux, if_neg hu]
    congr 1
    refine ih (u :: seen) (List.Nodup.of_cons hnd) ?_
    intro x hx
    have hxu : x ≠ u := by
      intro h
      subst h
      exact (List.nodup_cons.1 hnd).1 hx
    simp only [List.mem_cons, not_or]
    exact ⟨hxu, hs x (List.mem_cons_of_mem _ hx)⟩

theorem mem_commit (x : String) (U B : List String) :
    x ∈ commit U B ↔ x ∈ U ∨ x ∈ B := by
  unfold commit dedupFirstSeen
  rw [mem_dedupAux]
  simp

theorem nodup_commit (U B : List String) : (commit U B).Nodup :=
  nodup_dedupAux _ _

/-! ## Lemmas about the selection pool -/

theorem mem_remainingOf (m : Item) (manga : List Item) (used : List String) :
    m ∈ remainingOf manga used ↔ m ∈ manga ∧ m.1 ∉ used := by
  unfold remainingOf
  simp [List.mem_filter]

theorem remainingOf_subset (manga : List Item) (used : List String) :
    remainingOf manga used ⊆ manga :=
  fun _ hm => (List.mem_filter.1 hm).1

theorem remainingOf_ids_nodup (manga : List Item) (used : List String)
    (h : (manga.map Prod.fst).Nodup) :
    ((remainingOf manga used).map Prod.fst).Nodup :=
  List.Nodup.sublist (List.Sublist.map Prod.fst (List.filter_sublist _)) h

theorem selectPool_pool_subset (manga : List Item) (used : List String) :
    (selectPool manga used).pool ⊆ manga := by
  unfold selectPool
  split
  · exact fun _ h => h
  · exact remainingOf_subset manga used

theorem selectPool_pool_length (manga : List Item) (used : List String)
    (h : NUM_RECS ≤ manga.length) :
    NUM_RECS ≤ (selectPool manga used).pool.length := by
  unfold selectPool
  split
  · exact h
  · show NUM_RECS ≤ (remainingOf manga used).length
    omega

theorem selectPool_ids_nodup (manga : List Item) (used : List String)
    (h : (manga.map Prod.fst).Nodup) :
    ((selectPool manga used).pool.map Prod.fst).Nodup := by
  unfold selectPool
  split
  · exact h
  · exact remainingOf_ids_nodup manga used h

theorem selectPool_no_reset_mem (manga : List Item) (used : List String)
    (h : (selectPool manga used).resetOccurred = false)
    (m : Item) (hm : m ∈ (selectPool manga used).pool) : m.1 ∉ used := by
  unfold selectPool at h hm
  by_cases hc : (remainingOf manga used).length < NUM_RECS
  · simp [hc] at h
  · simp only [if_neg hc] at hm
    exact ((mem_remainingOf m manga used).1 hm).2

/-! ## Lemmas about the sample -/

theorem randomSample_ok (pool : List Item) (choice : List Nat)
    (h : NUM_RECS ≤ pool.length) :
    randomSample pool choice = .ok (choice.map (fun i => pool.getD i ("", ""))) := by
  unfold randomSample
  rw [if_pos h]

theorem sample_mem (pool : List Item) (choice : List Nat)
    (hb : ∀ i ∈ choice, i < pool.length) :
    ∀ b ∈ choice.map (fun i => pool.getD i ("", "")), b ∈ pool := by
  intro b hbm
  rcases List.mem_map.1 hbm with ⟨i, hi, rfl⟩
  rw [List.getD_eq_getElem _ _ (hb i hi)]
  exact List.getElem_mem (hb i hi)

theorem sample_ids_nodup (pool : List Item) (choice : List Nat)
    (hnd : (pool.map Prod.fst).Nodup) (hc : choice.Nodup)
    (hb : ∀ i ∈ choice, i < pool.length) :
    ((choice.map (fun i => pool.getD i ("", ""))).map Prod.fst).Nodup := by
  rw [List.map_map]
  refine List.Nodup.map_on ?_ hc
  intro i hi j hj hij
  simp only [Function.comp] at hij
  have hi' : i < pool.length := hb i hi
  have hj' : j < pool.length := hb j hj
  have hi'' : i < (pool.map Prod.fst).length := by simpa using hi'
  have hj'' : j < (pool.map Prod.fst).length := by simpa using hj'
  have hgm : (pool.map Prod.fst).get ⟨i, hi''⟩ = (pool.map Prod.fst).get ⟨j, hj''⟩ := by
    rw [List.get_eq_getElem, List.get_eq_getElem, List.getElem_map, List.getElem_map]
    rw [List.getD_eq_getElem _ _ hi', List.getD_eq_getElem _ _ hj'] at hij
    exact hij
  exact congrArg Fin.val ((List.Nodup.get_inj_iff hnd).1 hgm)

/-! ## Claim theorems: selection -/

/-- C1: for every catalog whose ids are distinct and of size at least
`NUM_RECS`, every used-set, and every valid draw, the selection step of
`build_video` succeeds and returns exactly `NUM_RECS` distinct items (with
distinct ids), all occurring in the catalog, and — when no reset was
triggered on this call — none of their ids lies in the used-set. -/
theorem selectStep_batch_spec (manga : List Item) (used : List String)
    (choice : List Nat)
    (hids : (manga.map Prod.fst).Nodup)
    (hn : NUM_RECS ≤ manga.length)
    (hchoice : ValidChoice (selectPool manga used).pool.length choice) :
    ∃ batch : List Item,
      selectStep manga used choice = .ok (batch, (selectPool manga used).resetOccurred)
      ∧ batch.length = NUM_RECS
      ∧ batch.Nodup
      ∧ (batch.map Prod.fst).Nodup
      ∧ (∀ b ∈ batch, b ∈ manga)
      ∧ ((selectPool manga used).resetOccurred = false → ∀ b ∈ batch, b.1 ∉ used) := by
  obtain ⟨hc, hlen, hb⟩ := hchoice
  have hp := selectPool_pool_length manga used hn
  have hidn := sample_ids_nodup _ choice (selectPool_ids_nodup manga used hids) hc hb
  refine ⟨choice.map (fun i => (selectPool manga used).pool.getD i ("", "")),
    ?_, ?_, ?_, hidn, ?_, ?_⟩
  · unfold selectStep
    rw [randomSample_ok _ _ hp]
  · simp [hlen]
  · exact List.Nodup.of_map Prod.fst hidn
  · intro b hbm
    exact selectPool_pool_subset manga used (sample_mem _ _ hb b hbm)
  · intro hr b hbm
    exact selectPool_no_reset_mem manga used hr b (sample_mem _ _ hb b hbm)

/-- Witness for C1 at a concrete five-item catalog, empty used-set, and
the identity draw. -/
theorem selectStep_batch_spec_witness :
    ∃ batch : List Item,
      selectStep [("A","a"),("B","b"),("C","c"),("D","d"),("E","e")] [] [0,1,2,3,4]
        = .ok (batch,
            (selectPool [("A","a"),("B","b"),("C","c"),("D","d"),("E","e")] []).resetOccurred)
      ∧ batch.length = NUM_RECS
      ∧ batch.Nodup
      ∧ (batch.map Prod.fst).Nodup
      ∧ (∀ b ∈ batch, b ∈ [("A","a"),("B","b"),("C","c"),("D","d"),("E","e")])
      ∧ ((selectPool [("A","a"),("B","b"),("C","c"),("D","d"),("E","e")] []).resetOccurred
          = false → ∀ b ∈ batch, b.1 ∉ ([] : List String)) :=
  selectStep_batch_spec [("A","a"),("B","b"),("C","c"),("D","d"),("E","e")] [] [0,1,2,3,4]
    (by decide) (by decide) (by decide)

/-- C2: the selection step triggers a reset exactly when fewer than
`NUM_RECS` catalog items remain outside the used-set; on a reset the
in-memory used list is cleared and the whole catalog becomes the sampling
pool; the flag reported by `selectStep` is this reset flag. -/
theorem selectPool_reset_iff (manga : List Item) (used : List String) :
    ((selectPool manga used).resetOccurred = true ↔
      (remainingOf manga used).length < NUM_RECS)
    ∧ ((selectPool manga used).resetOccurred = true →
        (selectPool manga used).pool = manga
        ∧ (selectPool manga used).usedForRun = [])
    ∧ (∀ choice batch r, selectStep manga used choice = .ok (batch, r) →
        r = (selectPool manga used).resetOccurred) := by
  refine ⟨?_, ?_, ?_⟩
  · unfold selectPool
    split
    · next hc => simpa using hc
    · next hc => simpa using hc
  · unfold selectPool
    split
    · exact fun _ => ⟨rfl, rfl⟩
    · intro h
      exact absurd h (by simp)
  · intro choice batch r h
    unfold selectStep at h
    cases hrs : randomSample (selectPool manga used).pool choice with
    | ok b =>
      rw [hrs] at h
      simp only [Except.ok.injEq, Prod.mk.injEq] at h
      exact h.2.symm
    | error e =>
      rw [hrs] at h
      simp at h

/-- Witness for C2's conditional parts: a one-item catalog triggers a
reset, and `selectStep` reports that flag. -/
theorem selectPool_reset_iff_witness :
    (selectPool [("A","a")] ["B"]).resetOccurred = true
    ∧ (selectPool [("A","a")] ["B"]).pool = [("A","a")] :=
  ⟨(selectPool_reset_iff [("A","a")] ["B"]).1.2 (by decide),
   ((selectPool_reset_iff [("A","a")] ["B"]).2.1 (by decide)).1⟩

/-- C3 counterexample: on the three-item catalog with an empty used-set
the selection step fails with the uncontrolled `ValueError` from
`random.sample`, not with `InsufficientCatalogError` — the source never
raises the latter. -/
theorem selectStep_insufficient_counterexample :
    selectStep [("A","a"),("B","b"),("C","c")] [] [0,1,2,3,4] = .error .valueError
    ∧ SelectError.valueError ≠ SelectError.insufficientCatalog :=
  ⟨rfl, by decide⟩

/-- C3 (amended): for every catalog with fewer than `NUM_RECS` items and
every used-set, the selection step fails before any rendering — but with
the uncontrolled `ValueError` raised by `random.sample` after the
attempted reset, not with a controlled `InsufficientCatalogError`. -/
theorem selectStep_small_catalog_valueError (manga : List Item)
    (used : List String) (choice : List Nat) (h : manga.length < NUM_RECS) :
    selectStep manga used choice = .error .valueError := by
  have hrem : (remainingOf manga used).length < NUM_RECS := by
    have hle := List.length_filter_le (fun m => !(decide (m.1 ∈ used))) manga
    unfold remainingOf
    omega
  have hpool : (selectPool manga used).pool = manga := by
    unfold selectPool
    rw [if_pos hrem]
  unfold selectStep
  rw [hpool]
  unfold randomSample
  rw [if_neg (by omega)]

/-- Witness for the amended C3 at a concrete one-item catalog. -/
theorem selectStep_small_catalog_witness :
    ([("A","a")] : List Item).length < NUM_RECS
    ∧ selectStep [("A","a")] ["Z"] [0] = .error .valueError :=
  ⟨by decide, selectStep_small_catalog_valueError [("A","a")] ["Z"] [0] (by decide)⟩

/-! ## Claim theorems: the commit and the run -/

/-- C4: the commit step returns the union of the persisted ledger and the
batch ids, deduplicated, with elements ordered by first occurrence in the
concatenation; in particular extending ledger `[A,B]` with batch ids
`[C,D,E]` persists exactly `[A,B,C,D,E]`, no duplicates. -/
theorem commit_union_spec (U B : List String) :
    (∀ x, x ∈ commit U B ↔ x ∈ U ∨ x ∈ B)
    ∧ (commit U B).Nodup
    ∧ (commit U B).Pairwise (fun x y => (U ++ B).indexOf x < (U ++ B).indexOf y)
    ∧ commit ["A", "B"] ["C", "D", "E"] = ["A", "B", "C", "D", "E"] :=
  ⟨fun x => mem_commit x U B, nodup_commit U B,
   pairwise_indexOf_dedupAux (U ++ B) [], by decide⟩

/-- C5: the commit is idempotent: committing the same batch twice yields
the same persisted ledger as committing it once. -/
theorem commit_idempotent (U B : List String) :
    commit (commit U B) B = commit U B := by
  have hsub : ∀ x ∈ B, x ∈ ([] : List String) ∨ x ∈ dedupAux [] (U ++ B) := by
    intro x hx
    right
    rw [mem_dedupAux]
    simp [hx]
  show dedupAux [] (dedupAux [] (U ++ B) ++ B) = dedupAux [] (U ++ B)
  rw [dedupAux_append B (dedupAux [] (U ++ B)) [] hsub]
  exact dedupAux_of_nodup _ [] (nodup_dedupAux _ _) (by simp)

/-- C6: a ledger write never persists a duplicate id whatever the prior
persisted state contained, and loading uses membership only, so a corrupt
ledger with duplicates selects exactly as its deduplicated form; in
particular `[A,A,B]` behaves as `[A,B]` and the next write drops the
duplicate. -/
theorem ledger_write_nodup (manga : List Item) (U B U1 U2 : List String)
    (h : ∀ x, x ∈ U1 ↔ x ∈ U2) :
    (commit U B).Nodup
    ∧ remainingOf manga U1 = remainingOf manga U2
    ∧ commit ["A", "A", "B"] ["C"] = ["A", "B", "C"] := by
  refine ⟨nodup_commit U B, ?_, by decide⟩
  unfold remainingOf
  apply List.filter_congr
  intro m _
  simp [h m.1]

/-- Witness for C6 on the corrupt ledger `[A,A,B]` of the scenario. -/
theorem ledger_write_nodup_witness :
    (commit ["A", "A", "B"] ["C"]).Nodup
    ∧ remainingOf [("A","a"),("B","b"),("C","c")] ["A", "A", "B"]
        = remainingOf [("A","a"),("B","b"),("C","c")] ["A", "B"]
    ∧ commit ["A", "A", "B"] ["C"] = ["A", "B", "C"] :=
  ledger_write_nodup [("A","a"),("B","b"),("C","c")] ["A", "A", "B"] ["C"]
    ["A", "A", "B"] ["A", "B"] (by intro x; simp [List.mem_cons])

/-- C7: the `used.json` update happens only after `write_videofile`
succeeded: in a run where rendering fails the exception propagates first
and the persisted ledger is exactly what it was before the run. -/
theorem render_failure_preserves_ledger (inp : RunInput)
    (h : inp.renderOk = false) :
    (buildVideoRun inp).diskUsed' = inp.diskUsed := by
  unfold buildVideoRun
  cases hs : selectStep inp.manga inp.diskUsed inp.choice with
  | error e => rfl
  | ok p =>
    cases p with
    | mk batch r => simp [h]

/-- Witness for C7: a failed render on a five-item catalog leaves the
ledger file holding exactly `["A"]`. -/
theorem render_failure_preserves_ledger_witness :
    (⟨[("A","a"),("B","b"),("C","c"),("D","d"),("E","e")],
        ["A"], [0,1,2,3,4], false⟩ : RunInput).renderOk = false
    ∧ (buildVideoRun ⟨[("A","a"),("B","b"),("C","c"),("D","d"),("E","e")],
        ["A"], [0,1,2,3,4], false⟩).diskUsed' = ["A"] :=
  ⟨rfl, render_failure_preserves_ledger _ rfl⟩

/-- C9: a reset is never persisted: the commit re-reads the ledger file
from disk and extends it, ignoring the in-memory reset, so every id
persisted before the run is still persisted after it — also in runs in
which a reset occurred. -/
theorem ledger_only_grows (inp : RunInput) (x : String)
    (hx : x ∈ inp.diskUsed) :
    x ∈ (buildVideoRun inp).diskUsed' := by
  unfold buildVideoRun
  cases hs : selectStep inp.manga inp.diskUsed inp.choice with
  | error e => exact hx
  | ok p =>
    cases p with
    | mk batch r =>
      by_cases hr : inp.renderOk = true
      · simp only [hr, if_true, ite_true]
        exact (mem_commit x _ _).2 (Or.inl hx)
      · simp only [hr, if_false, ite_false, Bool.false_eq_true]
        exact hx

/-- Witness for C9 on a run that does trigger a reset (only four of the
five catalog items are unused): the previously persisted id `A` survives
the write. -/
theorem ledger_only_grows_witness :
    "A" ∈ ["A"]
    ∧ "A" ∈ (buildVideoRun ⟨[("A","a"),("B","b"),("C","c"),("D","d"),("E","e")],
        ["A"], [0,1,2,3,4], true⟩ : RunResult).diskUsed' :=
  ⟨by decide,
   ledger_only_grows ⟨[("A","a"),("B","b"),("C","c"),("D","d"),("E","e")],
     ["A"], [0,1,2,3,4], true⟩ "A" (by decide)⟩

/-! ## Claim theorems: delivery -/

/-- C8: delivery is best-effort and leaves the ledger alone: the ledger
passes through the delivery step unchanged in every case, a transport
failure still yields a result (never an exception), and with complete
credentials that result is the logged warning. -/
theorem sendEmail_nonfatal (ledger : List String) (env : EmailEnv)
    (title : String) (slides : List Item) (vr tOk : Bool)
    (hv : vr = true) :
    (sendEmailStep ledger env title slides vr tOk).1 = ledger
    ∧ (∃ r, sendEmail env title slides vr false = .ok r)
    ∧ ((truthy env.sender && truthy env.appPassword && truthy env.receiver) = true →
        sendEmail env title slides vr false
          = .ok (.transportWarned (emailBody title slides))) := by
  subst hv
  refine ⟨rfl, ?_, ?_⟩
  · unfold sendEmail
    by_cases hc : (truthy env.sender && truthy env.appPassword && truthy env.receiver) = true
    · rw [if_pos hc]
      exact ⟨_, rfl⟩
    · rw [if_neg hc]
      exact ⟨_, rfl⟩
  · intro hc
    unfold sendEmail
    rw [if_pos hc]
    simp

/-- Witness for C8 with complete credentials and a failing transport. -/
theorem sendEmail_nonfatal_witness :
    (sendEmailStep ["A"] ⟨some ("u"), some ("p"), some ("r")⟩ "T" [("M","d")] true false).1 = ["A"]
    ∧ (∃ r, sendEmail ⟨some ("u"), some ("p"), some ("r")⟩ "T" [("M","d")] true false = .ok r)
    ∧ ((truthy (some ("u")) && truthy (some ("p")) && truthy (some ("r"))) = true →
        sendEmail ⟨some ("u"), some ("p"), some ("r")⟩ "T" [("M","d")] true false
          = .ok (.transportWarned (emailBody ("T") [("M","d")]))) :=
  sendEmail_nonfatal ["A"] ⟨some ("u"), some ("p"), some ("r")⟩ "T" [("M","d")] true false rfl

/-- C10: with any of the three Gmail credentials unset, `send_email`
returns at the `all` check — no message is built, no file read, no
transport attempted, no exception raised — whatever the title, slides and
downstream behavior. -/
theorem sendEmail_missing_env_skips (env : EmailEnv) (title : String)
    (slides : List Item) (vr tOk : Bool)
    (h : env.sender = none ∨ env.appPassword = none ∨ env.receiver = none) :
    sendEmail env title slides vr tOk = .ok .skipped := by
  unfold sendEmail
  have hc : (truthy env.sender && truthy env.appPassword && truthy env.receiver) = false := by
    rcases h with h | h | h <;> simp [h, truthy]
  simp [hc]

/-- Witness for C10: with the sender unset the call is skipped. -/
theorem sendEmail_missing_env_skips_witness :
    (⟨none, some ("p"), some ("r")⟩ : EmailEnv).sender = none
    ∧ sendEmail ⟨none, some ("p"), some ("r")⟩ "T" [("M","d")] true true = .ok .skipped :=
  ⟨rfl, sendEmail_missing_env_skips ⟨none, some ("p"), some ("r")⟩ "T" [("M","d")] true true
    (Or.inl rfl)⟩

end MangaBot
